import Mathlib

/-!
Shallow embedding of the `ContextMenu` component
(`src/packages/core/src/components/context-menu/contextMenu.tsx`).

The component keeps three pieces of state (`targetOffset`, `mouseEvent`,
`isOpen`) and exposes three state transitions: the `handleContextMenu`
event handler, the `handlePopoverInteraction` callback given to the
underlying Popover, and a reactive effect that resets `isOpen` whenever
the `disabled` prop changes.  Rendered JSX elements are abstracted by a
`Nat` identity; the DOM ancestor chain that `getContainingBlockOffset`
walks via `Element.closest` is modelled as an explicit list (the element
itself first, then its parents).
-/

/-- `type Offset = \x7b left: number; top: number \x7d` (contextMenu.tsx line 26).
Coordinates are modelled as integers. -/
structure Offset where
  left : Int
  top : Int
deriving Repr, DecidableEq

/-- Abstract rendered element (`JSX.Element`); only its identity matters here. -/
abbrev Element := Nat

/-- The parts of a `React.MouseEvent` this component reads: viewport
coordinates, and the `defaultPrevented` flag a nested `ContextMenu`
instance sets by calling `preventDefault`.  `id` models the JavaScript
object identity of the event. -/
structure MouseEvt where
  clientX : Int
  clientY : Int
  defaultPrevented : Bool
  id : Nat
deriving Repr, DecidableEq

/-- A DOM element as observed by `getContainingBlockOffset`: whether it
carries the `FIXED_POSITIONING_CONTAINING_BLOCK` marker class, and the
`left`/`top` of its current bounding client rect. -/
structure DomElement where
  hasContainingBlockClass : Bool
  rectLeft : Int
  rectTop : Int
deriving Repr, DecidableEq

/-- `element.closest(selector)` for the marker-class selector, over the
ancestor chain (the element itself first, then its parents): the nearest
element carrying the marker class. -/
def closest : List DomElement → Option DomElement
  | [] => Option.none
  | el :: rest => if el.hasContainingBlockClass then some el else closest rest

/-- `getContainingBlockOffset` (contextMenu.tsx lines 242-250).  The
container ref may be `null` (`Option.none`); otherwise it is the ancestor
chain of the container element. -/
def getContainingBlockOffset (targetElement : Option (List DomElement)) : Offset :=
  match targetElement with
  | some chain =>
    match closest chain with
    | some containingBlock => ⟨containingBlock.rectLeft, containingBlock.rectTop⟩
    | Option.none => ⟨0, 0⟩
  | Option.none => ⟨0, 0⟩

/-- `ContextMenuContentProps` (contextMenu.tsx lines 34-46). -/
structure ContextMenuContentProps where
  isOpen : Bool
  targetOffset : Option Offset
  mouseEvent : Option MouseEvt

/-- The `content` prop (line 75): absent, a static element, or a render
function of the current content props. -/
inductive Content where
  | absent
  | static (el : Element)
  | func (f : ContextMenuContentProps → Element)

/-- The component-local state hooks (lines 129-131). -/
structure CMState where
  targetOffset : Option Offset
  mouseEvent : Option MouseEvt
  isOpen : Bool
deriving Repr, DecidableEq

/-- Mount-time state: `isOpen = false`, no offset, no retained event. -/
def initialState : CMState :=
  { targetOffset := Option.none, mouseEvent := Option.none, isOpen := false }

/-- `contentProps` (line 160), assembled from the current state. -/
def contentProps (st : CMState) : ContextMenuContentProps :=
  { isOpen := st.isOpen, targetOffset := st.targetOffset, mouseEvent := st.mouseEvent }

/-- `menu` (line 164):
`disabled ? undefined : Utils.isFunction(content) ? content(contentProps) : content`. -/
def menu (disabled : Bool) (content : Content) (st : CMState) : Option Element :=
  if disabled then Option.none
  else
    match content with
    | Content.absent => Option.none
    | Content.static el => some el
    | Content.func f => some (f (contentProps st))

/-- Decimal digits of `n`, least significant first (empty for `0`).
Fuel-based so that it is structurally recursive; `fuel ≥ n` suffices. -/
def natToRevDigitsAux : Nat → Nat → List Char
  | 0, _ => []
  | fuel + 1, n =>
    if n = 0 then [] else Nat.digitChar (n % 10) :: natToRevDigitsAux fuel (n / 10)

/-- Decimal digits of `n`, least significant first (empty for `0`). -/
def natToRevDigits (n : Nat) : List Char :=
  natToRevDigitsAux n n

/-- Numeric value of a least-significant-first digit-character list;
decoder used to prove the digit encoding injective. -/
def revDigitsVal : List Char → Nat
  | [] => 0
  | c :: cs => (c.toNat - 48) + 10 * revDigitsVal cs

/-- Decimal digit characters of `n`, most significant first. -/
def natToChars (n : Nat) : List Char :=
  if n = 0 then ['0'] else (natToRevDigits n).reverse

/-- Character sequence of the decimal string of an integer: an optional
minus sign followed by the digits of the absolute value. -/
def intToChars (i : Int) : List Char :=
  if i < 0 then '-' :: natToChars i.natAbs else natToChars i.natAbs

/-- Decimal string of an integer, as JavaScript number-to-string produces
for integral values. -/
def intToString (i : Int) : String :=
  (intToChars i).asString

/-- `getPopoverKey` (contextMenu.tsx lines 252-254). -/
def getPopoverKey (targetOffset : Option Offset) : String :=
  match targetOffset with
  | Option.none => "default"
  | some o => intToString o.left ++ "x" ++ intToString o.top

/-- The Popover element produced on lines 165-188, restricted to the props
this component computes for it. -/
structure PopoverModel where
  content : Element
  key : String
  isOpen : Bool
deriving Repr, DecidableEq

/-- `maybePopover` (lines 165-188): `undefined` when the resolved menu is
`undefined`, else a Popover keyed by the current target offset. -/
def maybePopover (disabled : Bool) (content : Content) (st : CMState) : Option PopoverModel :=
  match menu disabled content st with
  | Option.none => Option.none
  | some m => some { content := m, key := getPopoverKey st.targetOffset, isOpen := st.isOpen }

/-- Observable outcome of one `handleContextMenu` call: the state after the
queued `setState` calls are applied, whether `preventDefault` and `persist`
were called on the event, and the argument the pass-through `onContextMenu`
callback was invoked with (`Option.none` when it was not invoked). -/
structure HandlerResult where
  state : CMState
  preventedDefault : Bool
  persisted : Bool
  callbackArg : Option MouseEvt
deriving Repr, DecidableEq

/-- `handleContextMenu` (contextMenu.tsx lines 190-214). -/
def handleContextMenu (disabled childrenIsFunction : Bool) (content : Content)
    (container : Option (List DomElement)) (st : CMState) (e : MouseEvt) : HandlerResult :=
  if e.defaultPrevented then
    { state := st, preventedDefault := false, persisted := false, callbackArg := Option.none }
  else
    let shouldHandleEvent :=
      !disabled && (childrenIsFunction || (maybePopover disabled content st).isSome)
    if shouldHandleEvent then
      let off := getContainingBlockOffset container
      { state :=
          { targetOffset := some ⟨e.clientX - off.left, e.clientY - off.top⟩,
            mouseEvent := some e,
            isOpen := true },
        preventedDefault := true,
        persisted := true,
        callbackArg := some e }
    else
      { state := st, preventedDefault := false, persisted := false, callbackArg := some e }

/-- `handlePopoverInteraction` (contextMenu.tsx lines 144-149). -/
def handlePopoverInteraction (st : CMState) (nextOpenState : Bool) : CMState :=
  if !nextOpenState then { st with isOpen := false, mouseEvent := Option.none } else st

/-- The `useEffect` on lines 138-140: runs whenever the `disabled` prop
changes (in either direction, hence the value of the new flag is ignored)
and resets `isOpen`. -/
def disabledChangeEffect (_newDisabled : Bool) (st : CMState) : CMState :=
  { st with isOpen := false }

/-- C1: every trigger event handled while `disabled = false` with content
present (static, function-resolved, or render-prop children) leaves
`isOpen = true`, retains the triggering event in `mouseEvent`, and sets
`targetOffset` to the event coordinates minus the containing-block offset. -/
theorem handleContextMenu_opens (disabled childrenIsFunction : Bool) (content : Content)
    (container : Option (List DomElement)) (st : CMState) (e : MouseEvt)
    (hnp : e.defaultPrevented = false) (hd : disabled = false)
    (hc : content ≠ Content.absent ∨ childrenIsFunction = true) :
    (handleContextMenu disabled childrenIsFunction content container st e).state.isOpen = true ∧
    (handleContextMenu disabled childrenIsFunction content container st e).state.mouseEvent
      = some e ∧
    (handleContextMenu disabled childrenIsFunction content container st e).state.targetOffset
      = some ⟨e.clientX - (getContainingBlockOffset container).left,
              e.clientY - (getContainingBlockOffset container).top⟩ := by
  subst hd
  have hpop : (childrenIsFunction || (maybePopover false content st).isSome) = true := by
    rcases hc with hc | hc
    · cases content with
      | absent => exact absurd rfl hc
      | static el => simp [maybePopover, menu]
      | func f => simp [maybePopover, menu]
    · simp [hc]
  simp [handleContextMenu, hnp, hpop]

/-- C1 witness: a concrete trigger event with static content opens the menu
at the expected offset. -/
theorem handleContextMenu_opens_witness :
    ((handleContextMenu false false (Content.static 1)
        (some [⟨true, 50, 30⟩]) initialState ⟨120, 80, false, 0⟩).state.isOpen = true ∧
     (handleContextMenu false false (Content.static 1)
        (some [⟨true, 50, 30⟩]) initialState ⟨120, 80, false, 0⟩).state.mouseEvent
       = some ⟨120, 80, false, 0⟩ ∧
     (handleContextMenu false false (Content.static 1)
        (some [⟨true, 50, 30⟩]) initialState ⟨120, 80, false, 0⟩).state.targetOffset
       = some ⟨120 - (getContainingBlockOffset (some [⟨true, 50, 30⟩])).left,
               80 - (getContainingBlockOffset (some [⟨true, 50, 30⟩])).top⟩) :=
  handleContextMenu_opens false false (Content.static 1) (some [⟨true, 50, 30⟩])
    initialState ⟨120, 80, false, 0⟩ rfl rfl (Or.inl (by simp))

/-- C2 counterexample: for an event already marked handled
(`defaultPrevented = true`) the handler returns before the pass-through
callback, so the callback is not invoked with the original event. -/
theorem handleContextMenu_prevented_no_callback :
    (handleContextMenu false false (Content.static 0) Option.none initialState
        ⟨5, 7, true, 0⟩).callbackArg = Option.none := rfl

/-- C2 amended: the pass-through callback is invoked with the original
event exactly when the event was not already marked handled
(`defaultPrevented`), regardless of whether internal state changed. -/
theorem handleContextMenu_callback (disabled childrenIsFunction : Bool) (content : Content)
    (container : Option (List DomElement)) (st : CMState) (e : MouseEvt) :
    (handleContextMenu disabled childrenIsFunction content container st e).callbackArg
      = if e.defaultPrevented = true then Option.none else some e := by
  by_cases hp : e.defaultPrevented = true
  · simp [handleContextMenu, hp]
  · simp [handleContextMenu, hp]
    split <;> rfl

/-- C3 counterexample: with absent content and non-function children, a
fresh trigger event does not open the menu, contrary to the claim that
`isOpen` still becomes true. -/
theorem trigger_without_content_does_not_open :
    (handleContextMenu false false Content.absent Option.none initialState
        ⟨5, 7, false, 0⟩).state.isOpen = false := rfl

/-- C3 amended: when content is absent and children is not a render
function, no floating panel is rendered and trigger events cause no state
change at all (in particular `isOpen` stays as it was); the state keeps
updating despite an absent panel only when children is a render function. -/
theorem handleContextMenu_no_content_static_children
    (container : Option (List DomElement)) (st : CMState) (e : MouseEvt) :
    maybePopover false Content.absent st = Option.none ∧
    (handleContextMenu false false Content.absent container st e).state = st := by
  refine ⟨by simp [maybePopover, menu], ?_⟩
  by_cases hp : e.defaultPrevented = true <;> simp [handleContextMenu, hp, maybePopover, menu]

/-- C5: the effect that watches the `disabled` prop forces `isOpen = false`
on every transition, in either direction; in particular re-enabling does
not by itself re-open the menu. -/
theorem disabledChangeEffect_closes (newDisabled : Bool) (st : CMState) :
    (disabledChangeEffect newDisabled st).isOpen = false := rfl

/-- C6: a popover interaction report of `false` (closed) sets
`isOpen = false` and clears the retained mouse event; a report of `true`
(open) changes no state field. -/
theorem handlePopoverInteraction_spec (st : CMState) (nextOpenState : Bool) :
    (nextOpenState = false →
      handlePopoverInteraction st nextOpenState
        = { st with isOpen := false, mouseEvent := Option.none }) ∧
    (nextOpenState = true → handlePopoverInteraction st nextOpenState = st) := by
  constructor <;> intro h <;> simp [handlePopoverInteraction, h]

/-- C6 witness: concrete closed and open reports on a concrete open state. -/
theorem handlePopoverInteraction_spec_witness :
    handlePopoverInteraction ⟨some ⟨1, 2⟩, some ⟨3, 4, false, 0⟩, true⟩ false
      = ⟨some ⟨1, 2⟩, Option.none, false⟩ ∧
    handlePopoverInteraction ⟨some ⟨1, 2⟩, some ⟨3, 4, false, 0⟩, true⟩ true
      = ⟨some ⟨1, 2⟩, some ⟨3, 4, false, 0⟩, true⟩ :=
  ⟨(handlePopoverInteraction_spec ⟨some ⟨1, 2⟩, some ⟨3, 4, false, 0⟩, true⟩ false).1 rfl,
   (handlePopoverInteraction_spec ⟨some ⟨1, 2⟩, some ⟨3, 4, false, 0⟩, true⟩ true).2 rfl⟩

/-- C7 counterexample: a trigger event received while `disabled = true`
that was already marked handled (`defaultPrevented = true`) does not invoke
the pass-through callback, contrary to the claim that the callback is
always invoked with the original event. -/
theorem disabled_prevented_trigger_no_callback :
    (handleContextMenu true false (Content.static 0) Option.none initialState
        ⟨1, 2, true, 0⟩).callbackArg = Option.none := rfl

/-- C7 amended: a trigger event received while `disabled = true` mutates no
internal state field; the pass-through callback receives the original event
when the event was not already marked handled, and is not invoked when it
was. -/
theorem handleContextMenu_disabled_frame (childrenIsFunction : Bool) (content : Content)
    (container : Option (List DomElement)) (st : CMState) (e : MouseEvt) :
    (handleContextMenu true childrenIsFunction content container st e).state = st ∧
    (handleContextMenu true childrenIsFunction content container st e).callbackArg
      = if e.defaultPrevented = true then Option.none else some e := by
  by_cases hp : e.defaultPrevented = true <;> simp [handleContextMenu, hp]

/-- C10: a disabled-flag transition closes the menu by setting only
`isOpen`; `mouseEvent` and `targetOffset` are untouched, so a state with
`isOpen = false` and a still-defined `mouseEvent` is reachable — unlike a
popover-reported close, which also clears the mouse event. -/
theorem disabledChangeEffect_frame :
    (∀ newDisabled st, disabledChangeEffect newDisabled st = { st with isOpen := false }) ∧
    ((disabledChangeEffect true
        (handleContextMenu false false (Content.static 0) Option.none initialState
          ⟨9, 9, false, 1⟩).state).isOpen = false ∧
     (disabledChangeEffect true
        (handleContextMenu false false (Content.static 0) Option.none initialState
          ⟨9, 9, false, 1⟩).state).mouseEvent = some ⟨9, 9, false, 1⟩) ∧
    (∀ st, (handlePopoverInteraction st false).mouseEvent = Option.none) := by
  refine ⟨fun _ _ => rfl, ⟨rfl, ?_⟩, fun st => rfl⟩
  decide

/-- C4: with no marked ancestor the containing-block offset is `(0, 0)` —
so the anchor offset computed by the handler equals the raw event
coordinates — and with a nearest marked ancestor of bounding rect
`(L, T)` the offset is `(L, T)`. -/
theorem getContainingBlockOffset_spec (chain : List DomElement) (e : MouseEvt) :
    ((∀ el ∈ chain, el.hasContainingBlockClass = false) →
      getContainingBlockOffset (some chain) = ⟨0, 0⟩) ∧
    (∀ cb, closest chain = some cb →
      getContainingBlockOffset (some chain) = ⟨cb.rectLeft, cb.rectTop⟩) ∧
    (e.defaultPrevented = false →
      (handleContextMenu false true Content.absent (some chain) initialState e).state.targetOffset
        = some ⟨e.clientX - (getContainingBlockOffset (some chain)).left,
                e.clientY - (getContainingBlockOffset (some chain)).top⟩) := by
  refine ⟨?_, ?_, ?_⟩
  · intro h
    have hcl : closest chain = Option.none := by
      induction chain with
      | nil => rfl
      | cons el rest ih =>
        have h1 := h el (List.mem_cons_self el rest)
        simp only [closest, h1, if_false]
        exact ih fun x hx => h x (List.mem_cons_of_mem el hx)
    simp [getContainingBlockOffset, hcl]
  · intro cb hcb
    simp [getContainingBlockOffset, hcb]
  · intro hnp
    simp [handleContextMenu, hnp]

/-- C4 witness: the nearest marked ancestor has rect `(50, 30)` and an
event at `(120, 80)` yields anchor offset `(70, 50)`; with no marked
ancestor the offset is `(0, 0)`. -/
theorem getContainingBlockOffset_spec_witness :
    getContainingBlockOffset (some [⟨false, 3, 4⟩]) = ⟨0, 0⟩ ∧
    getContainingBlockOffset (some [⟨false, 1, 1⟩, ⟨true, 50, 30⟩]) = ⟨50, 30⟩ ∧
    (handleContextMenu false true Content.absent (some [⟨false, 1, 1⟩, ⟨true, 50, 30⟩])
        initialState ⟨120, 80, false, 0⟩).state.targetOffset = some ⟨70, 50⟩ := by
  refine ⟨(getContainingBlockOffset_spec [⟨false, 3, 4⟩] ⟨0, 0, false, 0⟩).1 (by decide), ?_, ?_⟩
  · exact (getContainingBlockOffset_spec [⟨false, 1, 1⟩, ⟨true, 50, 30⟩]
      ⟨0, 0, false, 0⟩).2.1 ⟨true, 50, 30⟩ (by decide)
  · exact ((getContainingBlockOffset_spec [⟨false, 1, 1⟩, ⟨true, 50, 30⟩]
      ⟨120, 80, false, 0⟩).2.2 rfl).trans (by decide)

/-- C8: when disabled the resolved menu is absent regardless of the content
option; otherwise a content function is applied to the current content
props and a static element is used directly; and an absent resolved menu
means no Popover is rendered. -/
theorem menu_resolution (disabled : Bool) (content : Content) (st : CMState) :
    (disabled = true → menu disabled content st = Option.none) ∧
    (∀ f, disabled = false → content = Content.func f →
      menu disabled content st = some (f (contentProps st))) ∧
    (∀ el, disabled = false → content = Content.static el →
      menu disabled content st = some el) ∧
    (menu disabled content st = Option.none →
      maybePopover disabled content st = Option.none) := by
  refine ⟨fun hd => by simp [menu, hd], fun f hd hc => by simp [menu, hd, hc],
    fun el hd hc => by simp [menu, hd, hc], fun hm => by simp [maybePopover, hm]⟩

/-- C8 witness: concrete disabled, function-content, static-content and
absent-content cases. -/
theorem menu_resolution_witness :
    menu true (Content.static 3) initialState = Option.none ∧
    menu false (Content.func fun p => if p.isOpen then 1 else 2) initialState = some 2 ∧
    menu false (Content.static 3) initialState = some 3 ∧
    maybePopover false Content.absent initialState = Option.none := by
  refine ⟨(menu_resolution true (Content.static 3) initialState).1 rfl, ?_,
    (menu_resolution false (Content.static 3) initialState).2.2.1 3 rfl rfl,
    (menu_resolution false Content.absent initialState).2.2.2 (by simp [menu])⟩
  exact ((menu_resolution false (Content.func fun p => if p.isOpen then 1 else 2)
    initialState).2.1 (fun p => if p.isOpen then 1 else 2) rfl rfl).trans rfl

/-- A digit character for `d < 10` has code point `48 + d`. -/
theorem digitChar_toNat (d : Nat) (h : d < 10) : (Nat.digitChar d).toNat = 48 + d := by
  interval_cases d <;> rfl

/-- A digit character is neither the key separator nor a minus sign. -/
theorem digitChar_ne (d : Nat) (h : d < 10) :
    Nat.digitChar d ≠ 'x' ∧ Nat.digitChar d ≠ '-' := by
  interval_cases d <;> exact ⟨by decide, by decide⟩

/-- `revDigitsVal` decodes `natToRevDigitsAux` on sufficient fuel. -/
theorem natToRevDigitsAux_val (fuel : Nat) :
    ∀ n, n ≤ fuel → revDigitsVal (natToRevDigitsAux fuel n) = n := by
  induction fuel with
  | zero =>
    intro n hn
    interval_cases n
    rfl
  | succ fuel ih =>
    intro n hn
    by_cases h0 : n = 0
    · simp [natToRevDigitsAux, h0, revDigitsVal]
    · have hlt : n / 10 ≤ fuel := by
        have := Nat.div_lt_self (Nat.pos_of_ne_zero h0) (by decide : 1 < 10)
        omega
      have hmod : (Nat.digitChar (n % 10)).toNat = 48 + n % 10 :=
        digitChar_toNat _ (Nat.mod_lt _ (by decide))
      simp only [natToRevDigitsAux, h0, if_false, revDigitsVal]
      rw [ih _ hlt]
      omega

/-- `revDigitsVal` decodes `natToRevDigits`. -/
theorem natToRevDigits_val (n : Nat) : revDigitsVal (natToRevDigits n) = n :=
  natToRevDigitsAux_val n n (Nat.le_refl n)

/-- Every character produced by `natToRevDigitsAux` is a digit, hence
neither the separator nor a minus sign. -/
theorem natToRevDigitsAux_mem (fuel : Nat) :
    ∀ n c, c ∈ natToRevDigitsAux fuel n → c ≠ 'x' ∧ c ≠ '-' := by
  induction fuel with
  | zero =>
    intro n c hc
    simp [natToRevDigitsAux] at hc
  | succ fuel ih =>
    intro n c hc
    by_cases h0 : n = 0
    · simp [natToRevDigitsAux, h0] at hc
    · simp only [natToRevDigitsAux, h0, if_false, List.mem_cons] at hc
      rcases hc with rfl | hc
      · exact digitChar_ne _ (Nat.mod_lt _ (by decide))
      · exact ih _ _ hc

/-- Every character of `natToChars` is a digit. -/
theorem natToChars_mem (n : Nat) : ∀ c ∈ natToChars n, c ≠ 'x' ∧ c ≠ '-' := by
  intro c hc
  by_cases h0 : n = 0
  · simp only [natToChars, h0, if_true, List.mem_singleton] at hc
    subst hc
    exact ⟨by decide, by decide⟩
  · simp only [natToChars, h0, if_false, natToRevDigits, List.mem_reverse] at hc
    exact natToRevDigitsAux_mem n n c hc

/-- The decimal digit encoding of natural numbers is injective. -/
theorem natToChars_inj (m n : Nat) (h : natToChars m = natToChars n) : m = n := by
  by_cases hm : m = 0 <;> by_cases hn : n = 0
  · omega
  · exfalso
    simp only [natToChars, hm, hn, if_true, if_false] at h
    have h2 : natToRevDigits n = ['0'] := by
      have h3 := congrArg List.reverse h
      simpa using h3.symm
    have h4 := natToRevDigits_val n
    rw [h2] at h4
    have h5 : revDigitsVal ['0'] = 0 := by decide
    omega
  · exfalso
    simp only [natToChars, hm, hn, if_true, if_false] at h
    have h2 : natToRevDigits m = ['0'] := by
      have h3 := congrArg List.reverse h
      simpa using h3
    have h4 := natToRevDigits_val m
    rw [h2] at h4
    have h5 : revDigitsVal ['0'] = 0 := by decide
    omega
  · simp only [natToChars, hm, hn, if_false] at h
    have h2 : natToRevDigits m = natToRevDigits n := List.reverse_injective h
    have h4 := natToRevDigits_val m
    rw [h2, natToRevDigits_val n] at h4
    exact h4.symm

/-- The separator character never occurs in an integer's character
sequence. -/
theorem intToChars_mem_ne_x (i : Int) : ∀ c ∈ intToChars i, c ≠ 'x' := by
  intro c hc
  by_cases hi : i < 0
  · simp only [intToChars, hi, if_true, List.mem_cons] at hc
    rcases hc with rfl | hc
    · decide
    · exact (natToChars_mem _ c hc).1
  · simp only [intToChars, hi, if_false] at hc
    exact (natToChars_mem _ c hc).1

/-- The decimal character encoding of integers is injective. -/
theorem intToChars_inj (i j : Int) (h : intToChars i = intToChars j) : i = j := by
  by_cases hi : i < 0 <;> by_cases hj : j < 0
  · simp only [intToChars, hi, hj, if_true, List.cons.injEq] at h
    have := natToChars_inj _ _ h.2
    omega
  · exfalso
    simp only [intToChars, hi, hj, if_true, if_false] at h
    have hm : '-' ∈ natToChars j.natAbs := by
      rw [← h]
      exact List.mem_cons_self _ _
    exact (natToChars_mem _ _ hm).2 rfl
  · exfalso
    simp only [intToChars, hi, hj, if_true, if_false] at h
    have hm : '-' ∈ natToChars i.natAbs := by
      rw [h]
      exact List.mem_cons_self _ _
    exact (natToChars_mem _ _ hm).2 rfl
  · simp only [intToChars, hi, hj, if_false] at h
    have := natToChars_inj _ _ h
    omega

/-- Splitting at a separator that occurs in neither prefix is unambiguous. -/
theorem append_sep_split (l1 : List Char) :
    ∀ l3 l2 l4 : List Char, ('x' ∈ l1 → False) → ('x' ∈ l3 → False) →
      l1 ++ 'x' :: l2 = l3 ++ 'x' :: l4 → l1 = l3 ∧ l2 = l4 := by
  induction l1 with
  | nil =>
    intro l3 l2 l4 _ h3 h
    cases l3 with
    | nil => simpa using h
    | cons c cs =>
      exfalso
      simp only [List.nil_append, List.cons_append, List.cons.injEq] at h
      refine h3 ?_
      rw [h.1]
      exact List.mem_cons_self c cs
  | cons c cs ih =>
    intro l3 l2 l4 h1 h3 h
    cases l3 with
    | nil =>
      exfalso
      simp only [List.cons_append, List.nil_append, List.cons.injEq] at h
      refine h1 ?_
      rw [← h.1]
      exact List.mem_cons_self _ _
    | cons d ds =>
      simp only [List.cons_append, List.cons.injEq] at h
      obtain ⟨rfl, h2⟩ := h
      have hrest := ih ds l2 l4 (fun hx => h1 (List.mem_cons_of_mem _ hx))
        (fun hx => h3 (List.mem_cons_of_mem _ hx)) h2
      exact ⟨by rw [hrest.1], hrest.2⟩

/-- Character data of a defined popover key: left digits, separator, top
digits. -/
theorem getPopoverKey_some_data (o : Offset) :
    (getPopoverKey (some o)).data = intToChars o.left ++ 'x' :: intToChars o.top := by
  show (intToString o.left ++ "x" ++ intToString o.top).data = _
  rw [String.data_append, String.data_append]
  show (intToChars o.left ++ ['x']) ++ intToChars o.top = _
  simp

/-- The popover key function is injective on optional offsets. -/
theorem getPopoverKey_injective (o1 o2 : Option Offset)
    (h : getPopoverKey o1 = getPopoverKey o2) : o1 = o2 := by
  have hd := congrArg String.data h
  cases o1 with
  | none =>
    cases o2 with
    | none => rfl
    | some o =>
      exfalso
      rw [getPopoverKey_some_data] at hd
      have hx : 'x' ∈ (getPopoverKey Option.none).data := by
        rw [hd]
        exact List.mem_append_right _ (List.mem_cons_self _ _)
      revert hx
      decide
  | some o =>
    cases o2 with
    | none =>
      exfalso
      rw [getPopoverKey_some_data] at hd
      have hx : 'x' ∈ (getPopoverKey Option.none).data := by
        rw [← hd]
        exact List.mem_append_right _ (List.mem_cons_self _ _)
      revert hx
      decide
    | some p =>
      rw [getPopoverKey_some_data, getPopoverKey_some_data] at hd
      have hsplit := append_sep_split (intToChars o.left) (intToChars p.left)
        (intToChars o.top) (intToChars p.top)
        (fun hx => intToChars_mem_ne_x _ _ hx rfl)
        (fun hx => intToChars_mem_ne_x _ _ hx rfl) hd
      have h1 := intToChars_inj _ _ hsplit.1
      have h2 := intToChars_inj _ _ hsplit.2
      cases o
      cases p
      simp_all

/-- C9: the popover re-mount key is `"default"` for an undefined offset and
`"<left>x<top>"` otherwise, and two keys are equal exactly when the
offsets they were computed from are equal; in particular offset
`(10, 20)` yields key `"10x20"`. -/
theorem getPopoverKey_spec :
    getPopoverKey Option.none = "default" ∧
    (∀ o : Offset, getPopoverKey (some o) = intToString o.left ++ "x" ++ intToString o.top) ∧
    (∀ o1 o2 : Option Offset, getPopoverKey o1 = getPopoverKey o2 ↔ o1 = o2) ∧
    getPopoverKey (some ⟨10, 20⟩) = "10x20" := by
  refine ⟨rfl, fun o => rfl, fun o1 o2 => ⟨getPopoverKey_injective o1 o2, fun h => by rw [h]⟩, ?_⟩
  decide
